import Mathlib

/-
Verification of the efm32-rs gen-tools pipeline (src/tools.py) against its
natural-language specification.

The development shallowly embeds the parts of tools.py that the claims are
about:

- the device-group derivation in walk_svd_files
  (the regex substitution on the lower-cased file stem);
- the per-family metadata aggregation in generate_mcu_family_crates
  (supported_mcus as the sorted set of device groups, supported_mcus_full
  as an insertion-ordered mapping from group to device names);
- the output-directory gate and event trace of generate_pac_crate;
- the CRATE_GEN_SEM counting semaphore as a small-step transition system;
- the external-process traces of _cargo_check, _publish_crate and
  run_publish, parameterised by an oracle giving the exit status of each
  spawned process;
- the substring-based exclusion filters of run_pacs_test and run_publish;
- the fallible supported_mcus index access of generate_pac_readme.

Strings are modelled with the Lean String type; Python compares strings by
code points, which is mirrored below by an explicit lexicographic order on
the underlying character lists (the built-in String order is not used).
All device and path names in scope are ASCII, so the ASCII-only model of
str.lower and of the regex character class \d is faithful on the inputs
that occur. Definitions come first, all theorems follow.
-/

/-! Lexicographic code-point order on strings, as used by Python sorted. -/

/-- Code-point comparison of characters, as Python compares characters. -/
def charLeB (a b : Char) : Bool := a.toNat ≤ b.toNat

/-- Lexicographic code-point order on character lists: the order Python uses
to compare strings. -/
def listCharLeB : List Char → List Char → Bool
  | [], _ => true
  | _ :: _, [] => false
  | a :: as, b :: bs => if a = b then listCharLeB as bs else charLeB a b

/-- Python string comparison, as a relation on Lean strings. -/
def strLe (s t : String) : Prop := listCharLeB s.data t.data = true

instance : DecidableRel strLe := fun s t => by unfold strLe; infer_instance

/-! ASCII model of Python str.lower, of the regex class \d, and of the
Python substring operator. -/

/-- Python str.lower, restricted to ASCII (all names in scope are ASCII). -/
def pyLower (s : String) : String := ⟨s.data.map Char.toLower⟩

/-- ASCII decimal digit test, the regex class \d on ASCII input. -/
def isAsciiDigit (c : Char) : Bool := '0' ≤ c && c ≤ '9'

/-- Python substring containment (the `in` operator on strings): some suffix
of s starts with pat. -/
def isSubstr (pat s : List Char) : Bool :=
  (List.range (s.length + 1)).any (fun i => pat.isPrefixOf (s.drop i))

/-! Device-group derivation of walk_svd_files: the substitution
re.sub(pattern f-digits-to-end, empty, stem.lower()). On a string without
newlines this deletes everything from the leftmost occurrence of the letter
f followed by a decimal digit through the end of the string, and leaves the
string unchanged when no such occurrence exists. -/

/-- Substitution re.sub of the suffix pattern used by walk_svd_files: scan
left to right and drop everything from the first position holding the
letter f immediately followed by a decimal digit. -/
def stripDeviceSuffix : List Char → List Char
  | [] => []
  | c :: rest =>
    if c = 'f' ∧ rest.head?.any isAsciiDigit = true then []
    else c :: stripDeviceSuffix rest

/-- Test for an occurrence of the letter f immediately followed by a decimal
digit, the condition under which the suffix pattern of walk_svd_files
matches. -/
def hasFDigit : List Char → Bool
  | [] => false
  | c :: rest =>
    if c = 'f' ∧ rest.head?.any isAsciiDigit = true then true
    else hasFDigit rest

/-! Pathlib stem and suffix of a file name: the name splits at its last dot
when that dot is neither the leading nor the trailing character; otherwise
the stem is the whole name and the suffix is empty. -/

/-- Stem and suffix of a file name, following the pathlib rule used by
walk_svd_files through svd_file.stem and svd_file.suffix. -/
def splitStemSuffix (name : String) : String × String :=
  let cs := name.data
  let revExt := cs.reverse.takeWhile (fun c => c ≠ '.')
  if revExt.length + 2 ≤ cs.length && !revExt.isEmpty then
    (⟨cs.take (cs.length - revExt.length - 1)⟩, ⟨cs.drop (cs.length - revExt.length - 1)⟩)
  else (name, "")

/-- Filter condition of walk_svd_files: svd_file.suffix.endswith applied to
the string svd. -/
def isSvdFile (name : String) : Bool :=
  "svd".data.isSuffixOf (splitStemSuffix name).2.data

/-- Metadata of one discovered description file, mirroring the SvdMeta
dataclass of tools.py; path keeps the raw file name in place of the
OS-resolved absolute path. -/
structure SvdMeta where
  generic_name : String
  full_name : String
  path : String
deriving DecidableEq

/-- Derivation of the generic (device-group) name from a file stem, exactly
as walk_svd_files computes it: the suffix pattern is deleted from the
lower-cased stem. -/
def generic_name_of (stem : String) : String :=
  ⟨stripDeviceSuffix (pyLower stem).data⟩

/-- Walk of one family directory, mirroring walk_svd_files: every entry
whose pathlib suffix ends with svd yields an SvdMeta with the stripped
lower-cased stem as generic name and the lower-cased stem as full name. -/
def walk_svd_files (files : List String) : List SvdMeta :=
  files.filterMap (fun f =>
    if isSvdFile f then
      some ⟨generic_name_of (splitStemSuffix f).1, pyLower (splitStemSuffix f).1, f⟩
    else none)

/-- Per-family metadata, mirroring the PacMeta dataclass of tools.py; the
Python dict with insertion order is modelled as an association list in key
insertion order. -/
structure PacMeta where
  family : String
  supported_mcus : List String
  supported_mcus_full : List (String × List String)
deriving DecidableEq

/-- Update of the defaultdict mcu_list of generate_mcu_family_crates: append
a device name to the list of its group, creating the key at the end on
first sight, as Python dict insertion order does. -/
def addToGroups (m : List (String × List String)) (k v : String) :
    List (String × List String) :=
  match m with
  | [] => [(k, [v])]
  | (k2, vs) :: rest =>
    if k2 = k then (k2, vs ++ [v]) :: rest else (k2, vs) :: addToGroups rest k v

/-- Finalisation sorted(mcu_group) of generate_mcu_family_crates: the
distinct device groups in Python string order. -/
def finalize_device_groups (names : List String) : List String :=
  List.insertionSort strLe names.dedup

/-- Construction of the PacMeta record for one family directory, as the
family loop body of generate_mcu_family_crates performs it. -/
def familyPacMeta (family : String) (files : List String) : PacMeta :=
  let svds := walk_svd_files files
  { family := family
    supported_mcus := finalize_device_groups (svds.map SvdMeta.generic_name)
    supported_mcus_full :=
      svds.foldl (fun m s => addToGroups m s.generic_name s.full_name) [] }

/-- Metadata aggregation of generate_mcu_family_crates over the immediate
subdirectories of the description root: one PacMeta per subdirectory,
with the lower-cased directory name as family, whether or not the
directory holds any description files. -/
def generate_mcu_family_crates (svd_root : List (String × List String)) :
    List PacMeta :=
  svd_root.map (fun fam => familyPacMeta (pyLower fam.1) fam.2)

/-- Usage section of generate_pac_readme: the template subscripts
supported_mcus at index zero, a fallible access modelled with Option; the
surrounding literal template text is elided. -/
def generate_pac_readme (pac_meta : PacMeta) (crate_ver : String) :
    Option String :=
  (pac_meta.supported_mcus[0]?).map
    (fun m => "version = " ++ crate_ver ++ ", features = " ++ m)

/-- Crate-file writing loop of run_pacs_generation: every returned PacMeta
is passed unfiltered to the writer, hence to generate_pac_readme. -/
def write_all_crate_files (metas : List PacMeta) (crate_ver : String) :
    List (Option String) :=
  metas.map (fun m => generate_pac_readme m crate_ver)

/-! Output directory gate and the event trace of generate_pac_crate. The
filesystem state relevant to the gate is the set of existing directories,
a path being its component list. The body of the OUT_DIR_LOCK block is a
single atomic transition because the lock serialises every check-and-create
against all other tasks; concurrent gate invocations are therefore modelled
as a sequential fold in an arbitrary arrival order. -/

/-- Directory path as its component list. -/
abbrev DirPath := List String

/-- All ancestors of a path, the path itself included: what
out_dir.mkdir(parents=True) creates when missing. -/
def ancestorsOf (p : DirPath) : List DirPath :=
  (List.range p.length).map (fun k => p.take (k + 1))

/-- Creation of a single directory when absent, a no-op when present. -/
def insertIfAbsent (acc : List DirPath) (q : DirPath) : List DirPath :=
  if q ∈ acc then acc else q :: acc

/-- Effect of out_dir.mkdir(parents=True): add the path and every missing
ancestor to the set of existing directories. -/
def mkdir_parents (fs : List DirPath) (p : DirPath) : List DirPath :=
  (ancestorsOf p).foldl insertIfAbsent fs

/-- Body of the OUT_DIR_LOCK block of generate_pac_crate: under the lock,
an existing out_dir means skip with no side effect, an absent out_dir is
created with its parents and the task proceeds. -/
def acquire_or_skip (fs : List DirPath) (p : DirPath) : Bool × List DirPath :=
  if p ∈ fs then (false, fs) else (true, mkdir_parents fs p)

/-- Observable side effects of a generation task, in program order. -/
inductive GenEvent
  | semAcquire
  | tmpdirCreate
  | spawn (tool : String)
  | unlink (file : String)
  | rename (src dst : String)
  | move (file : String)
  | tmpdirCleanup
  | semRelease
deriving DecidableEq

/-- Side-effect trace of the generation body of generate_pac_crate after the
gate signalled proceed: semaphore unit, scratch directory, the optional
svdtools patch step, the svd2rust and form processes, the mod.rs unlink and
lib.rs rename, the conditional generic.rs move, the device.x and module
moves, and the rustfmt step, with scratch cleanup before the semaphore
release. -/
def gen_body_events (patch_file : Option String) (generic_rs_exists : Bool) :
    List GenEvent :=
  [GenEvent.semAcquire, GenEvent.tmpdirCreate]
  ++ (match patch_file with
      | some _ => [GenEvent.spawn "svdtools"]
      | none => [])
  ++ [GenEvent.spawn "svd2rust", GenEvent.spawn "form",
      GenEvent.unlink "mod.rs", GenEvent.rename "lib.rs" "mod.rs"]
  ++ (if generic_rs_exists then [] else [GenEvent.move "generic.rs"])
  ++ [GenEvent.move "device.x", GenEvent.move "src modules",
      GenEvent.spawn "rustfmt", GenEvent.tmpdirCleanup, GenEvent.semRelease]

/-- Output directory of one generation task:
pacs_dir/pac_family/src/generic_name. -/
def pac_out_dir (pacs_dir : DirPath) (pac_family generic_name : String) :
    DirPath :=
  pacs_dir ++ [pac_family, "src", generic_name]

/-- Model of generate_pac_crate: the gate decides between an immediate
side-effect-free return and the full generation body; the result is the
proceed flag, the emitted event trace and the directory state after the
gate. -/
def generate_pac_crate (fs : List DirPath) (pacs_dir : DirPath)
    (pac_family generic_name : String) (patch_file : Option String)
    (generic_rs_exists : Bool) : Bool × List GenEvent × List DirPath :=
  let out_dir := pac_out_dir pacs_dir pac_family generic_name
  let gate := acquire_or_skip fs out_dir
  if gate.1 then (true, gen_body_events patch_file generic_rs_exists, gate.2)
  else (false, [], gate.2)

/-- Serialised execution of the gate by a queue of tasks: the OUT_DIR_LOCK
admits one check-and-create at a time, so any concurrent arrival order is
some sequential order of atomic gate executions. -/
def runGates (fs : List DirPath) (ps : List DirPath) :
    List Bool × List DirPath :=
  match ps with
  | [] => ([], fs)
  | p :: rest =>
    let g := acquire_or_skip fs p
    let r := runGates g.2 rest
    (g.1 :: r.1, r.2)

/-! Concurrency limiter CRATE_GEN_SEM. A generation task, after passing the
gate, enters the block async-with CRATE_GEN_SEM, spawning its external
generator/reorganizer pair only inside it; leaving the block, normally or
through a raised assertion, releases the unit. The tasks and the counter
form a transition system: a pending task may acquire a unit when one is
available and is then running (its process pair live); a running task
completes, successfully or not, and thereby releases its unit. -/

/-- Phase of one generation task with respect to the limiter. -/
inductive TaskPhase
  | pending
  | running
  | done
deriving DecidableEq

/-- State of the limiter system: free units of the semaphore plus the phase
of every queued task. -/
structure SemState where
  avail : Nat
  tasks : List TaskPhase
deriving DecidableEq

/-- Number of tasks whose generator/reorganizer pair is currently live. -/
def runningCount (l : List TaskPhase) : Nat := l.count TaskPhase.running

/-- Transitions of the limiter system: acquisition of a free unit by a
pending task, and completion (success or failure alike) of a running task,
which releases its unit. -/
inductive SemStep : SemState → SemState → Prop
  | acquire (a : Nat) (l r : List TaskPhase) :
      SemStep ⟨a + 1, l ++ TaskPhase.pending :: r⟩
        ⟨a, l ++ TaskPhase.running :: r⟩
  | complete (a : Nat) (l r : List TaskPhase) (success : Bool) :
      SemStep ⟨a, l ++ TaskPhase.running :: r⟩
        ⟨a + 1, l ++ TaskPhase.done :: r⟩

/-- Capacity of CRATE_GEN_SEM: asyncio.Semaphore(multiprocessing.cpu_count()). -/
def crate_gen_sem_capacity (cpu_count : Nat) : Nat := cpu_count

/-- Initial state: the semaphore at full capacity and m queued tasks, none
yet admitted. -/
def crate_gen_init (cpu_count m : Nat) : SemState :=
  ⟨crate_gen_sem_capacity cpu_count, List.replicate m TaskPhase.pending⟩

/-- Reachability of a state of the limiter system from the initial state. -/
def SemReachable (cpu_count m : Nat) (s : SemState) : Prop :=
  Relation.ReflTransGen SemStep (crate_gen_init cpu_count m) s

/-! Verification pipeline: the per-package loop of _cargo_check. The exit
status of each external cargo invocation is an oracle parameter; the model
records the processes actually spawned, in order, and stops at the first
asserted non-zero exit exactly as the Python assertions do. -/

/-- Observable external-process invocations of _cargo_check for one
package. -/
inductive CheckEvent
  | check (feature : String)
  | clean
deriving DecidableEq

/-- Feature extraction of _cargo_check: the manifest features that start
with efm32. -/
def crate_mcu_features (features : List String) : List String :=
  features.filter (fun f => "efm32".data.isPrefixOf f.data)

/-- Per-feature loop of _cargo_check: one cargo check invocation per
feature, asserted, then one cargo clean invocation, asserted; a failed
assertion ends the loop with the remaining features untouched. -/
def cargo_check_loop (features : List String)
    (check_ok clean_ok : String → Bool) : List CheckEvent :=
  match features with
  | [] => []
  | f :: rest =>
    if check_ok f then
      if clean_ok f then
        CheckEvent.check f :: CheckEvent.clean ::
          cargo_check_loop rest check_ok clean_ok
      else [CheckEvent.check f, CheckEvent.clean]
    else [CheckEvent.check f]

/-- Model of _cargo_check on one package: filter the manifest features to
the efm32 ones, then run the per-feature check/clean loop. -/
def _cargo_check (manifest_features : List String)
    (check_ok clean_ok : String → Bool) : List CheckEvent :=
  cargo_check_loop (crate_mcu_features manifest_features) check_ok clean_ok

/-! Exclusion filters of run_pacs_test and run_publish: a package is dropped
when any caller-supplied exclusion string occurs as a substring of the
resolved manifest path. -/

/-- Python operator in, on strings. -/
def pyIn (pat s : String) : Bool := isSubstr pat.data s.data

/-- Manifest selection of run_pacs_test: a missing exclusion list defaults
to the empty list, then paths with no exclusion substring are kept. -/
def run_pacs_test_selected (manifests : List String)
    (exclude : Option (List String)) : List String :=
  let exclude_dirs := exclude.getD []
  manifests.filter (fun p => !(exclude_dirs.any (fun ex => pyIn ex p)))

/-- Per-package eligibility test of run_publish: publish when no exclusion
list was given, or when no exclusion string occurs in the path. -/
def run_publish_eligible (exclude : Option (List String)) (p : String) :
    Bool :=
  match exclude with
  | none => true
  | some exclude_dirs => !(exclude_dirs.any (fun ex => pyIn ex p))

/-! Publish pipeline: _publish_crate and the package loop of run_publish.
Exit statuses of the spawned cargo processes are oracle parameters; note
that the first cargo clean of _publish_crate is awaited but its return code
is never asserted in the source. -/

/-- Observable events of the publish pipeline. -/
inductive PubEvent
  | clean (pkg : String)
  | publish (pkg : String) (dry_run : Bool)
  | sleep (seconds : Nat)
deriving DecidableEq

/-- Exit statuses of the three external processes _publish_crate spawns for
one package: the clean before publish, the publish, the clean after. -/
structure PubOutcome where
  pre_clean_ok : Bool
  publish_ok : Bool
  post_clean_ok : Bool

/-- Model of _publish_crate: clean (return code unchecked), publish
(asserted), clean (asserted); the result is the spawned-process trace and
whether the call returned without a failed assertion. -/
def _publish_crate (pkg : String) (is_dry_run : Bool) (o : PubOutcome) :
    List PubEvent × Bool :=
  if o.publish_ok then
    ([PubEvent.clean pkg, PubEvent.publish pkg is_dry_run,
      PubEvent.clean pkg], o.post_clean_ok)
  else
    ([PubEvent.clean pkg, PubEvent.publish pkg is_dry_run], false)

/-- Package loop of run_publish: each non-excluded package is published in
queue order; after a successful _publish_crate and only when dry-run is
disabled, the loop sleeps 5 * 60 seconds before the next package; a failed
assertion inside _publish_crate aborts the remaining queue. -/
def run_publish (manifests : List String) (exclude : Option (List String))
    (is_dry_run : Bool) (o : String → PubOutcome) : List PubEvent :=
  match manifests with
  | [] => []
  | p :: rest =>
    if run_publish_eligible exclude p then
      let res := _publish_crate p is_dry_run (o p)
      if res.2 then
        res.1 ++ (if is_dry_run then [] else [PubEvent.sleep (5 * 60)])
          ++ run_publish rest exclude is_dry_run o
      else res.1
    else run_publish rest exclude is_dry_run o

/-- Number of inter-publish delays observed in a publish trace. -/
def countSleeps (trace : List PubEvent) : Nat :=
  trace.countP (fun e => match e with
    | PubEvent.sleep _ => true
    | _ => false)

/-- Description files of the example scenario of the specification: the
family directory efm32gg with two files of one device group and one file of
another. -/
def c7_example_files : List String :=
  ["efm32gg-f32.svd", "efm32gg-f64.svd", "efm32gg11b-f32.svd"]

/-- Oracle under which the clean step run before the publish of the first
package exits non-zero and every other process succeeds. -/
def c8_pre_clean_fail_oracle : String → PubOutcome :=
  fun p => if p = "pac1" then ⟨false, true, true⟩ else ⟨true, true, true⟩

/-! Theorems. First the order-theoretic facts about the Python string
order, then the lemma library for each model, then one theorem per claim
of the specification review, each with its witness where the statement
carries hypotheses. -/

theorem char_eq_of_toNat_eq {a b : Char} (h : a.toNat = b.toNat) : a = b :=
  Char.eq_of_val_eq (UInt32.ext h)

theorem listCharLeB_total (a b : List Char) :
    listCharLeB a b = true ∨ listCharLeB b a = true := by
  induction a generalizing b with
  | nil => exact Or.inl rfl
  | cons x xs ih =>
    cases b with
    | nil => exact Or.inr rfl
    | cons y ys =>
      by_cases hxy : x = y
      · subst hxy
        simpa [listCharLeB] using ih ys
      · have hyx : y ≠ x := fun h2 => hxy h2.symm
        rcases Nat.le_total x.toNat y.toNat with h | h
        · exact Or.inl (by simp [listCharLeB, hxy, charLeB, h])
        · exact Or.inr (by simp [listCharLeB, hyx, charLeB, h])

theorem charLeB_lt_of_ne {x y : Char} (hne : x ≠ y) (h : charLeB x y = true) :
    x.toNat < y.toNat := by
  have hle : x.toNat ≤ y.toNat := by simpa [charLeB] using h
  exact lt_of_le_of_ne hle (fun h2 => hne (char_eq_of_toNat_eq h2))

theorem listCharLeB_trans (a b c : List Char)
    (hab : listCharLeB a b = true) (hbc : listCharLeB b c = true) :
    listCharLeB a c = true := by
  induction a generalizing b c with
  | nil => rfl
  | cons x xs ih =>
    cases b with
    | nil => simp [listCharLeB] at hab
    | cons y ys =>
      cases c with
      | nil => simp [listCharLeB] at hbc
      | cons z zs =>
        by_cases hxy : x = y
        · subst hxy
          simp only [listCharLeB, if_pos rfl] at hab
          by_cases hyz : x = z
          · subst hyz
            simp only [listCharLeB, if_pos rfl] at hbc ⊢
            exact ih ys zs hab hbc
          · simp only [listCharLeB, if_neg hyz] at hbc ⊢
            exact hbc
        · simp only [listCharLeB, if_neg hxy] at hab
          have hxylt : x.toNat < y.toNat := charLeB_lt_of_ne hxy hab
          by_cases hyz : y = z
          · subst hyz
            simp only [listCharLeB, if_neg hxy]
            simpa [charLeB] using Nat.le_of_lt hxylt
          · simp only [listCharLeB, if_neg hyz] at hbc
            have hyzlt : y.toNat < z.toNat := charLeB_lt_of_ne hyz hbc
            have hxz : x ≠ z := by
              intro h2
              subst h2
              exact absurd (Nat.lt_trans hxylt hyzlt) (lt_irrefl _)
            simp only [listCharLeB, if_neg hxz]
            simpa [charLeB] using Nat.le_of_lt (Nat.lt_trans hxylt hyzlt)

theorem listCharLeB_antisymm (a b : List Char)
    (hab : listCharLeB a b = true) (hba : listCharLeB b a = true) : a = b := by
  induction a generalizing b with
  | nil =>
    cases b with
    | nil => rfl
    | cons y ys => simp [listCharLeB] at hba
  | cons x xs ih =>
    cases b with
    | nil => simp [listCharLeB] at hab
    | cons y ys =>
      by_cases hxy : x = y
      · subst hxy
        simp only [listCharLeB, if_pos rfl] at hab hba
        rw [ih ys hab hba]
      · simp only [listCharLeB, if_neg hxy,
          if_neg (fun h2 : y = x => hxy h2.symm)] at hab hba
        exact absurd (Nat.lt_trans (charLeB_lt_of_ne hxy hab)
          (charLeB_lt_of_ne (fun h2 => hxy h2.symm) hba)) (lt_irrefl _)

instance : IsTotal String strLe :=
  ⟨fun s t => listCharLeB_total s.data t.data⟩

instance : IsTrans String strLe :=
  ⟨fun s t u hab hbc => listCharLeB_trans s.data t.data u.data hab hbc⟩

instance : IsAntisymm String strLe :=
  ⟨fun s t hab hba => by
    cases s with
    | mk ds =>
      cases t with
      | mk dt =>
        exact congrArg String.mk (listCharLeB_antisymm ds dt hab hba)⟩

theorem isSubstr_correct (pat s : List Char) :
    isSubstr pat s = true ↔ pat <:+: s := by
  constructor
  · intro h
    rcases List.any_eq_true.mp h with ⟨i, _, hpre⟩
    have hp : pat <+: s.drop i := List.isPrefixOf_iff_prefix.mp hpre
    rcases hp with ⟨t, ht⟩
    refine ⟨s.take i, t, ?_⟩
    rw [List.append_assoc, ht, List.take_append_drop]
  · rintro ⟨l, r, rfl⟩
    apply List.any_eq_true.mpr
    refine ⟨l.length, ?_, ?_⟩
    · simp [List.mem_range, List.length_append]
      omega
    · apply List.isPrefixOf_iff_prefix.mpr
      rw [List.append_assoc, List.drop_left]
      exact ⟨r, rfl⟩

theorem stripDeviceSuffix_isPref (l : List Char) : stripDeviceSuffix l <+: l := by
  induction l with
  | nil => exact List.nil_prefix
  | cons c rest ih =>
    by_cases h : c = 'f' ∧ rest.head?.any isAsciiDigit = true
    · simp [stripDeviceSuffix, h]
    · rcases ih with ⟨t, ht⟩
      refine ⟨t, ?_⟩
      simp [stripDeviceSuffix, h, ht]

theorem stripDeviceSuffix_length_lt (l : List Char) (h : hasFDigit l = true) :
    (stripDeviceSuffix l).length < l.length := by
  induction l with
  | nil => simp [hasFDigit] at h
  | cons c rest ih =>
    by_cases hc : c = 'f' ∧ rest.head?.any isAsciiDigit = true
    · simp [stripDeviceSuffix, hc]
    · have hrest : hasFDigit rest = true := by
        simpa [hasFDigit, hc] using h
      simpa [stripDeviceSuffix, hc] using ih hrest

theorem stripDeviceSuffix_head? (l : List Char) :
    (stripDeviceSuffix l).head? = none ∨ (stripDeviceSuffix l).head? = l.head? := by
  cases l with
  | nil => exact Or.inl rfl
  | cons c rest =>
    by_cases hc : c = 'f' ∧ rest.head?.any isAsciiDigit = true
    · simp [stripDeviceSuffix, hc]
    · simp [stripDeviceSuffix, hc]

theorem hasFDigit_stripDeviceSuffix (l : List Char) :
    hasFDigit (stripDeviceSuffix l) = false := by
  induction l with
  | nil => rfl
  | cons c rest ih =>
    by_cases hc : c = 'f' ∧ rest.head?.any isAsciiDigit = true
    · simp [stripDeviceSuffix, hc, hasFDigit]
    · have hc2 : ¬(c = 'f' ∧ (stripDeviceSuffix rest).head?.any isAsciiDigit = true) := by
        intro ⟨h1, h2⟩
        rcases stripDeviceSuffix_head? rest with hh | hh
        · rw [hh] at h2
          simp [Option.any] at h2
        · rw [hh] at h2
          exact hc ⟨h1, h2⟩
      simp [stripDeviceSuffix, hc, hasFDigit, hc2, ih]

theorem stripDeviceSuffix_of_not_hasFDigit (l : List Char)
    (h : hasFDigit l = false) : stripDeviceSuffix l = l := by
  induction l with
  | nil => rfl
  | cons c rest ih =>
    by_cases hc : c = 'f' ∧ rest.head?.any isAsciiDigit = true
    · simp [hasFDigit, hc] at h
    · have hrest : hasFDigit rest = false := by
        simpa [hasFDigit, hc] using h
      simp [stripDeviceSuffix, hc, ih hrest]

theorem stripDeviceSuffix_idem (l : List Char) :
    stripDeviceSuffix (stripDeviceSuffix l) = stripDeviceSuffix l :=
  stripDeviceSuffix_of_not_hasFDigit _ (hasFDigit_stripDeviceSuffix l)

theorem mem_foldl_insert (l : List DirPath) (fs : List DirPath)
    (x : DirPath) (h : x ∈ fs) :
    x ∈ l.foldl insertIfAbsent fs := by
  induction l generalizing fs with
  | nil => exact h
  | cons q rest ih =>
    simp only [List.foldl_cons]
    apply ih
    by_cases hq : q ∈ fs
    · simpa [insertIfAbsent, hq] using h
    · simp [insertIfAbsent, hq, h]

theorem mem_foldl_insert_self (l : List DirPath)
    (fs : List DirPath) (x : DirPath) (h : x ∈ l) :
    x ∈ l.foldl insertIfAbsent fs := by
  induction l generalizing fs with
  | nil => simp at h
  | cons q rest ih =>
    simp only [List.foldl_cons]
    rcases List.mem_cons.mp h with rfl | hrest
    · apply mem_foldl_insert
      by_cases hq : x ∈ fs
      · simp [insertIfAbsent, hq]
      · simp [insertIfAbsent, hq]
    · exact ih _ hrest

theorem mem_mkdir_parents (fs : List DirPath) (p q : DirPath)
    (h : q ∈ ancestorsOf p) : q ∈ mkdir_parents fs p :=
  mem_foldl_insert_self _ _ _ h

theorem self_mem_mkdir_parents (fs : List DirPath) (p : DirPath)
    (hne : p ≠ []) : p ∈ mkdir_parents fs p := by
  apply mem_mkdir_parents
  have hlen : 0 < p.length := List.length_pos.mpr hne
  apply List.mem_map.mpr
  refine ⟨p.length - 1, ?_, ?_⟩
  · simp [List.mem_range]
    omega
  · have : p.length - 1 + 1 = p.length := by omega
    rw [this, List.take_length]

theorem runGates_skip_of_mem (fs : List DirPath) (p : DirPath) (n : Nat)
    (h : p ∈ fs) :
    runGates fs (List.replicate n p) = (List.replicate n false, fs) := by
  induction n with
  | zero => rfl
  | succ k ih =>
    simp [runGates, List.replicate, acquire_or_skip, h, ih]

theorem semStep_invariant {s t : SemState} (h : SemStep s t)
    (hinv : s.avail + runningCount s.tasks = n) :
    t.avail + runningCount t.tasks = n := by
  cases h with
  | acquire a l r =>
    simp [runningCount, List.count_append, List.count_cons] at hinv ⊢
    omega
  | complete a l r success =>
    simp [runningCount, List.count_append, List.count_cons] at hinv ⊢
    omega

theorem semReachable_invariant (cpu_count m : Nat) (s : SemState)
    (h : SemReachable cpu_count m s) :
    s.avail + runningCount s.tasks = crate_gen_sem_capacity cpu_count := by
  induction h with
  | refl =>
    simp [crate_gen_init, runningCount, List.count_replicate]
  | tail _ hstep ih => exact semStep_invariant hstep ih

theorem countSleeps_publish_crate (pkg : String) (d : Bool) (o : PubOutcome) :
    countSleeps (_publish_crate pkg d o).1 = 0 := by
  by_cases h : o.publish_ok = true
  · simp [_publish_crate, h, countSleeps]
  · simp [_publish_crate, h, countSleeps]

theorem countSleeps_append (t1 t2 : List PubEvent) :
    countSleeps (t1 ++ t2) = countSleeps t1 + countSleeps t2 := by
  simp [countSleeps, List.countP_append]

theorem run_publish_dry_no_sleep (manifests : List String)
    (exclude : Option (List String)) (o : String → PubOutcome) :
    countSleeps (run_publish manifests exclude true o) = 0 := by
  induction manifests with
  | nil => rfl
  | cons p rest ih =>
    by_cases he : run_publish_eligible exclude p = true
    · by_cases hr : (_publish_crate p true (o p)).2 = true
      · simp [run_publish, he, hr, countSleeps_append, ih,
          countSleeps_publish_crate]
      · simp [run_publish, he, hr, countSleeps_publish_crate]
    · simp [run_publish, he, ih]

theorem run_publish_sleep_per_package (manifests : List String)
    (exclude : Option (List String)) (o : String → PubOutcome)
    (hok : ∀ p, (o p).publish_ok = true ∧ (o p).post_clean_ok = true) :
    countSleeps (run_publish manifests exclude false o)
      = (manifests.filter (run_publish_eligible exclude)).length := by
  induction manifests with
  | nil => rfl
  | cons p rest ih =>
    by_cases he : run_publish_eligible exclude p = true
    · have hr : (_publish_crate p false (o p)).2 = true := by
        simp [_publish_crate, (hok p).1, (hok p).2]
      have hstep : run_publish (p :: rest) exclude false o
          = (_publish_crate p false (o p)).1 ++ [PubEvent.sleep (5 * 60)]
            ++ run_publish rest exclude false o := by
        simp [run_publish, he, hr]
      have hone : countSleeps [PubEvent.sleep (5 * 60)] = 1 := rfl
      rw [hstep, countSleeps_append, countSleeps_append,
        countSleeps_publish_crate, ih, hone]
      have hfil : List.filter (run_publish_eligible exclude) (p :: rest)
          = p :: List.filter (run_publish_eligible exclude) rest := by
        simp [List.filter_cons, he]
      rw [hfil]
      simp [Nat.add_comm]
    · simp [run_publish, he, ih, List.filter_cons, he]

theorem run_publish_pre_clean_irrelevant (manifests : List String)
    (exclude : Option (List String)) (d : Bool) (o1 o2 : String → PubOutcome)
    (h : ∀ q, (o1 q).publish_ok = (o2 q).publish_ok
      ∧ (o1 q).post_clean_ok = (o2 q).post_clean_ok) :
    run_publish manifests exclude d o1 = run_publish manifests exclude d o2 := by
  induction manifests with
  | nil => rfl
  | cons p rest ih =>
    have hpc : _publish_crate p d (o1 p) = _publish_crate p d (o2 p) := by
      simp [_publish_crate, (h p).1, (h p).2]
    by_cases he : run_publish_eligible exclude p = true
    · simp [run_publish, he, hpc, ih]
    · simp [run_publish, he, ih]

/-- C6: for every device name matching the expected naming convention (its
lower-cased form contains the letter f followed by a decimal digit), the
device group derived by walk_svd_files is a strict prefix of the
lower-cased device name, and the stripping transformation is idempotent:
applied to its own output it returns it unchanged. -/
theorem c6_device_group_strict_and_idem (stem : String)
    (h : hasFDigit (pyLower stem).data = true) :
    (generic_name_of stem).data <+: (pyLower stem).data
    ∧ (generic_name_of stem).data.length < (pyLower stem).data.length
    ∧ stripDeviceSuffix (generic_name_of stem).data
        = (generic_name_of stem).data :=
  ⟨stripDeviceSuffix_isPref _, stripDeviceSuffix_length_lt _ h,
    stripDeviceSuffix_idem _⟩

/-- Witness for C6 at the concrete device name EFM32GG990F1024. -/
theorem c6_witness :
    (generic_name_of "EFM32GG990F1024").data <+: (pyLower "EFM32GG990F1024").data
    ∧ (generic_name_of "EFM32GG990F1024").data.length
        < (pyLower "EFM32GG990F1024").data.length
    ∧ stripDeviceSuffix (generic_name_of "EFM32GG990F1024").data
        = (generic_name_of "EFM32GG990F1024").data :=
  c6_device_group_strict_and_idem "EFM32GG990F1024" (by decide)

/-- C4: the finalized device-group list of a family is invariant under
permutation of the discovery order of its description files, and it is
always sorted in Python string order. -/
theorem c4_device_groups_sorted_perm_invariant (family : String)
    (files1 files2 : List String)
    (h : List.Perm ((walk_svd_files files1).map SvdMeta.generic_name)
      ((walk_svd_files files2).map SvdMeta.generic_name)) :
    (familyPacMeta family files1).supported_mcus
      = (familyPacMeta family files2).supported_mcus
    ∧ List.Sorted strLe (familyPacMeta family files1).supported_mcus := by
  constructor
  · have hd := h.dedup
    exact List.eq_of_perm_of_sorted
      (((List.perm_insertionSort strLe _).trans hd).trans
        (List.perm_insertionSort strLe _).symm)
      (List.sorted_insertionSort strLe _)
      (List.sorted_insertionSort strLe _)
  · exact List.sorted_insertionSort strLe _

/-- Witness for C4: the device groups a, a1 and b discovered in two
different enumeration orders finalize to the same sorted list. -/
theorem c4_witness :
    (familyPacMeta "fam" ["bf1.svd", "a1f2.svd", "af3.svd"]).supported_mcus
      = (familyPacMeta "fam" ["af3.svd", "bf1.svd", "a1f2.svd"]).supported_mcus
    ∧ List.Sorted strLe
        (familyPacMeta "fam" ["bf1.svd", "a1f2.svd", "af3.svd"]).supported_mcus :=
  c4_device_groups_sorted_perm_invariant "fam"
    ["bf1.svd", "a1f2.svd", "af3.svd"] ["af3.svd", "bf1.svd", "a1f2.svd"]
    (by decide)

/-- C7 counterexample: on the example scenario input, the device-group
derivation keeps the hyphen that precedes the memory-size suffix, so the
finalized device groups differ from the claimed pair. -/
theorem c7_example_scenario_counterexample :
    (familyPacMeta "efm32gg" c7_example_files).supported_mcus
      ≠ ["efm32gg", "efm32gg11b"] := by decide

/-- C7 amended: for the family directory efm32gg holding efm32gg-f32.svd,
efm32gg-f64.svd and efm32gg11b-f32.svd, the finalized metadata has
device_groups equal to the pair efm32gg- and efm32gg11b- (the stripping
substitution removes from the first f-digit occurrence onward, leaving the
hyphen), groups_to_devices maps efm32gg- to efm32gg-f32 and efm32gg-f64 and
maps efm32gg11b- to efm32gg11b-f32, and exactly two output subdirectories
are created under the family output tree. -/
theorem c7_example_scenario_amended :
    (familyPacMeta "efm32gg" c7_example_files).supported_mcus
      = ["efm32gg-", "efm32gg11b-"]
    ∧ (familyPacMeta "efm32gg" c7_example_files).supported_mcus_full
      = [("efm32gg-", ["efm32gg-f32", "efm32gg-f64"]),
         ("efm32gg11b-", ["efm32gg11b-f32"])]
    ∧ ((runGates [] ((walk_svd_files c7_example_files).map
        (fun s => pac_out_dir ["pacs"] "efm32gg" s.generic_name))).1.count true)
      = 2 := by decide

/-- C10: a family subdirectory holding no description files still yields a
PacMeta with empty supported_mcus and empty supported_mcus_full, and the
crate-file writing pass, which subscripts supported_mcus at index zero for
every returned family without filtering, fails on that entry (the modelled
access yields none). -/
theorem c10_empty_family_meta_reaches_readme
    (svd_root : List (String × List String)) (fam : String)
    (files : List String) (ver : String)
    (hmem : (fam, files) ∈ svd_root)
    (hempty : ∀ f ∈ files, isSvdFile f = false) :
    familyPacMeta (pyLower fam) files ∈ generate_mcu_family_crates svd_root
    ∧ (familyPacMeta (pyLower fam) files).supported_mcus = []
    ∧ (familyPacMeta (pyLower fam) files).supported_mcus_full = []
    ∧ generate_pac_readme (familyPacMeta (pyLower fam) files) ver = none
    ∧ none ∈ write_all_crate_files (generate_mcu_family_crates svd_root) ver := by
  have hwalk : walk_svd_files files = [] := by
    apply List.filterMap_eq_nil_iff.mpr
    intro f hf
    simp [hempty f hf]
  have hm : familyPacMeta (pyLower fam) files ∈ generate_mcu_family_crates svd_root := by
    unfold generate_mcu_family_crates
    exact List.mem_map_of_mem (fun q => familyPacMeta (pyLower q.1) q.2) hmem
  have h1 : (familyPacMeta (pyLower fam) files).supported_mcus = [] := by
    simp [familyPacMeta, hwalk, finalize_device_groups, List.insertionSort]
  have h2 : (familyPacMeta (pyLower fam) files).supported_mcus_full = [] := by
    simp [familyPacMeta, hwalk]
  have h3 : generate_pac_readme (familyPacMeta (pyLower fam) files) ver = none := by
    simp [generate_pac_readme, h1]
  refine ⟨hm, h1, h2, h3, ?_⟩
  unfold write_all_crate_files
  apply List.mem_map.mpr
  exact ⟨familyPacMeta (pyLower fam) files, hm, h3⟩

/-- Witness for C10: a root with one family directory holding only a
non-description file. -/
theorem c10_witness :
    familyPacMeta (pyLower "Fam1") ["notes.txt"]
      ∈ generate_mcu_family_crates [("Fam1", ["notes.txt"])]
    ∧ (familyPacMeta (pyLower "Fam1") ["notes.txt"]).supported_mcus = []
    ∧ (familyPacMeta (pyLower "Fam1") ["notes.txt"]).supported_mcus_full = []
    ∧ generate_pac_readme (familyPacMeta (pyLower "Fam1") ["notes.txt"]) "0.1" = none
    ∧ none ∈ write_all_crate_files
        (generate_mcu_family_crates [("Fam1", ["notes.txt"])]) "0.1" :=
  c10_empty_family_meta_reaches_readme [("Fam1", ["notes.txt"])] "Fam1"
    ["notes.txt"] "0.1" (by decide) (by decide)

theorem any_pyIn_iff (exclude_dirs : List String) (q : String) :
    (exclude_dirs.any (fun ex => pyIn ex q)) = true
      ↔ ∃ ex ∈ exclude_dirs, ex.data <:+: q.data := by
  rw [List.any_eq_true]
  constructor
  · rintro ⟨ex, hmem, hin⟩
    exact ⟨ex, hmem, (isSubstr_correct ex.data q.data).mp hin⟩
  · rintro ⟨ex, hmem, hin⟩
    exact ⟨ex, hmem, (isSubstr_correct ex.data q.data).mpr hin⟩

/-- C9: in both the verification and the publish pipeline a package is
excluded exactly when some caller-supplied exclusion string occurs as a
substring of its resolved manifest path; consequently any package whose
path contains an exclusion string as a substring, in particular a package
whose name extends an excluded name, is dropped as well. -/
theorem c9_exclusion_is_substring_match (manifests : List String)
    (exclude_dirs : List String) (p : String) :
    (p ∈ run_pacs_test_selected manifests (some exclude_dirs)
      ↔ p ∈ manifests ∧ ¬∃ ex ∈ exclude_dirs, ex.data <:+: p.data)
    ∧ (run_publish_eligible (some exclude_dirs) p = true
      ↔ ¬∃ ex ∈ exclude_dirs, ex.data <:+: p.data)
    ∧ (∀ ex ∈ exclude_dirs, ex.data <:+: p.data →
        p ∉ run_pacs_test_selected manifests (some exclude_dirs)
        ∧ run_publish_eligible (some exclude_dirs) p = false) := by
  have hsel : p ∈ run_pacs_test_selected manifests (some exclude_dirs)
      ↔ p ∈ manifests ∧ ¬∃ ex ∈ exclude_dirs, ex.data <:+: p.data := by
    unfold run_pacs_test_selected
    rw [List.mem_filter]
    constructor
    · rintro ⟨hml, hpred⟩
      refine ⟨hml, ?_⟩
      intro hex
      have hany := (any_pyIn_iff exclude_dirs p).mpr hex
      simp [hany] at hpred
    · rintro ⟨hml, hnex⟩
      refine ⟨hml, ?_⟩
      have hfalse : (exclude_dirs.any (fun ex => pyIn ex p)) = false := by
        rcases Bool.eq_false_or_eq_true (exclude_dirs.any fun ex => pyIn ex p)
          with ht | hf
        · exact absurd ((any_pyIn_iff exclude_dirs p).mp ht) hnex
        · exact hf
      simp [hfalse]
  have helig : run_publish_eligible (some exclude_dirs) p = true
      ↔ ¬∃ ex ∈ exclude_dirs, ex.data <:+: p.data := by
    constructor
    · intro hpred hex
      have hany := (any_pyIn_iff exclude_dirs p).mpr hex
      simp [run_publish_eligible, hany] at hpred
    · intro hnex
      have hfalse : (exclude_dirs.any (fun ex => pyIn ex p)) = false := by
        rcases Bool.eq_false_or_eq_true (exclude_dirs.any fun ex => pyIn ex p)
          with ht | hf
        · exact absurd ((any_pyIn_iff exclude_dirs p).mp ht) hnex
        · exact hf
      simp [run_publish_eligible, hfalse]
  refine ⟨hsel, helig, ?_⟩
  intro ex hmem hinf
  constructor
  · intro hp
    exact (hsel.mp hp).2 ⟨ex, hmem, hinf⟩
  · rcases Bool.eq_false_or_eq_true (run_publish_eligible (some exclude_dirs) p)
      with ht | hf
    · exact absurd ⟨ex, hmem, hinf⟩ (helig.mp ht)
    · exact hf

/-- Witness for C9: excluding efm32gg also drops the efm32gg11b package,
whose manifest path contains efm32gg as a substring, in both pipelines. -/
theorem c9_witness :
    "pacs/efm32gg11b/Cargo.toml"
        ∉ run_pacs_test_selected ["pacs/efm32gg11b/Cargo.toml"] (some ["efm32gg"])
    ∧ run_publish_eligible (some ["efm32gg"]) "pacs/efm32gg11b/Cargo.toml"
        = false := by
  have h := (c9_exclusion_is_substring_match ["pacs/efm32gg11b/Cargo.toml"]
    ["efm32gg"] "pacs/efm32gg11b/Cargo.toml").2.2 "efm32gg"
    (by decide) (by decide)
  exact ⟨h.1, h.2⟩

/-- C1: the output-directory gate of generate_pac_crate. For every output
path: if the directory already exists the call signals skip and the task
returns at once with an empty side-effect trace (no scratch directory, no
limiter unit, no spawned process, no file moved) and an unchanged directory
state; if it does not exist, the full path with all its parents is created
and the task proceeds; and because check and creation execute under the one
process-wide OUT_DIR_LOCK, in every serialisation of any number of
duplicate tasks gating on the same absent path exactly the first creates it
and every later one skips. -/
theorem c1_out_dir_gate (fs : List DirPath) (pacs_dir : DirPath)
    (pac_family generic_name : String) (patch_file : Option String)
    (generic_rs_exists : Bool) (n : Nat) :
    (pac_out_dir pacs_dir pac_family generic_name ∈ fs →
      generate_pac_crate fs pacs_dir pac_family generic_name patch_file
        generic_rs_exists = (false, [], fs))
    ∧ (pac_out_dir pacs_dir pac_family generic_name ∉ fs →
      (generate_pac_crate fs pacs_dir pac_family generic_name patch_file
        generic_rs_exists).1 = true
      ∧ ∀ k < (pac_out_dir pacs_dir pac_family generic_name).length,
          (pac_out_dir pacs_dir pac_family generic_name).take (k + 1)
            ∈ (generate_pac_crate fs pacs_dir pac_family generic_name patch_file
                generic_rs_exists).2.2)
    ∧ (pac_out_dir pacs_dir pac_family generic_name ∉ fs →
      (runGates fs (List.replicate (n + 1)
          (pac_out_dir pacs_dir pac_family generic_name))).1
        = true :: List.replicate n false) := by
  refine ⟨?_, ?_, ?_⟩
  · intro h
    simp [generate_pac_crate, acquire_or_skip, h]
  · intro h
    constructor
    · simp [generate_pac_crate, acquire_or_skip, h]
    · intro k hk
      have hout : (generate_pac_crate fs pacs_dir pac_family generic_name
          patch_file generic_rs_exists).2.2
          = mkdir_parents fs (pac_out_dir pacs_dir pac_family generic_name) := by
        simp [generate_pac_crate, acquire_or_skip, h]
      rw [hout]
      apply mem_mkdir_parents
      apply List.mem_map.mpr
      exact ⟨k, List.mem_range.mpr hk, rfl⟩
  · intro h
    have hne : pac_out_dir pacs_dir pac_family generic_name ≠ [] := by
      simp [pac_out_dir]
    have hmem : pac_out_dir pacs_dir pac_family generic_name
        ∈ mkdir_parents fs (pac_out_dir pacs_dir pac_family generic_name) :=
      self_mem_mkdir_parents fs _ hne
    simp [runGates, List.replicate, acquire_or_skip, h,
      runGates_skip_of_mem _ _ n hmem]

/-- Witness for C1: a present out_dir is skipped with no events, and of two
duplicate gate executions on an absent out_dir only the first proceeds. -/
theorem c1_witness :
    (generate_pac_crate [["pacs", "efm32gg", "src", "efm32gg990"]] ["pacs"]
        "efm32gg" "efm32gg990" none false
      = (false, [], [["pacs", "efm32gg", "src", "efm32gg990"]]))
    ∧ (runGates [] (List.replicate 2 (pac_out_dir ["pacs"] "efm32gg"
        "efm32gg990"))).1 = [true, false] := by
  constructor
  · exact (c1_out_dir_gate [["pacs", "efm32gg", "src", "efm32gg990"]] ["pacs"]
      "efm32gg" "efm32gg990" none false 0).1 (by decide)
  · exact (c1_out_dir_gate [] ["pacs"] "efm32gg" "efm32gg990" none false 1).2.2
      (by decide)

/-- C3: the concurrency limiter CRATE_GEN_SEM is a counting semaphore at
the host cpu count; in every state reachable from any queue of m generation
tasks, the held units plus the free units equal the capacity, so at no
instant do more than capacity-many generator/reorganizer pairs run
simultaneously, with each running task holding exactly one unit that is
released on completion whether it succeeded or failed. -/
theorem c3_crate_gen_sem_bound (cpu_count m : Nat) (s : SemState)
    (h : SemReachable cpu_count m s) :
    runningCount s.tasks ≤ crate_gen_sem_capacity cpu_count
    ∧ s.avail + runningCount s.tasks = crate_gen_sem_capacity cpu_count := by
  have hinv := semReachable_invariant cpu_count m s h
  exact ⟨by omega, hinv⟩

/-- Witness for C3: with capacity 2 and 3 queued tasks, the state reached
after two acquisitions has 2 running pairs, within the bound. -/
theorem c3_witness :
    runningCount (SemState.mk 0 [TaskPhase.running, TaskPhase.running,
        TaskPhase.pending]).tasks ≤ crate_gen_sem_capacity 2
    ∧ (SemState.mk 0 [TaskPhase.running, TaskPhase.running,
        TaskPhase.pending]).avail
      + runningCount (SemState.mk 0 [TaskPhase.running, TaskPhase.running,
        TaskPhase.pending]).tasks = crate_gen_sem_capacity 2 := by
  have h1 : SemStep (crate_gen_init 2 3)
      (SemState.mk 1 [TaskPhase.running, TaskPhase.pending, TaskPhase.pending]) :=
    SemStep.acquire 1 [] [TaskPhase.pending, TaskPhase.pending]
  have h2 : SemStep
      (SemState.mk 1 [TaskPhase.running, TaskPhase.pending, TaskPhase.pending])
      (SemState.mk 0 [TaskPhase.running, TaskPhase.running, TaskPhase.pending]) :=
    SemStep.acquire 0 [TaskPhase.running] [TaskPhase.pending]
  have hr : SemReachable 2 3
      (SemState.mk 0 [TaskPhase.running, TaskPhase.running, TaskPhase.pending]) :=
    Relation.ReflTransGen.tail
      (Relation.ReflTransGen.tail Relation.ReflTransGen.refl h1) h2
  exact c3_crate_gen_sem_bound 2 3 _ hr

/-- C5: for a package whose manifest declares the device-group features f1
and f2 beside the fixed non-device features, the check loop of _cargo_check
visits exactly those two features; with every step succeeding, the spawned
processes are exactly the f1 check, a clean, the f2 check, a clean, in that
order; and when the f1 check exits non-zero the loop stops at once and the
f2 check is never spawned. -/
theorem c5_cargo_check_two_features (f1 f2 : String)
    (check_ok clean_ok : String → Bool)
    (hpre1 : "efm32".data.isPrefixOf f1.data = true)
    (hpre2 : "efm32".data.isPrefixOf f2.data = true)
    (hne : f1 ≠ f2) :
    (_cargo_check ["default", "rt", "critical-section", f1, f2] check_ok clean_ok
      = cargo_check_loop [f1, f2] check_ok clean_ok)
    ∧ (check_ok f1 = true → clean_ok f1 = true → check_ok f2 = true →
        clean_ok f2 = true →
        cargo_check_loop [f1, f2] check_ok clean_ok
          = [CheckEvent.check f1, CheckEvent.clean,
             CheckEvent.check f2, CheckEvent.clean])
    ∧ (check_ok f1 = false →
        cargo_check_loop [f1, f2] check_ok clean_ok = [CheckEvent.check f1]
        ∧ CheckEvent.check f2 ∉ cargo_check_loop [f1, f2] check_ok clean_ok) := by
  refine ⟨?_, ?_, ?_⟩
  · unfold _cargo_check crate_mcu_features
    simp [List.filter_cons, hpre1, hpre2]
  · intro h1 h2 h3 h4
    simp [cargo_check_loop, h1, h2, h3, h4]
  · intro h1
    have hne2 : f2 ≠ f1 := fun h => hne h.symm
    constructor
    · simp [cargo_check_loop, h1]
    · simp [cargo_check_loop, h1, hne2]

/-- Witness for C5 at two concrete device-group features with all processes
succeeding. -/
theorem c5_witness :
    _cargo_check ["default", "rt", "critical-section", "efm32gg990",
        "efm32gg995"] (fun _ => true) (fun _ => true)
      = [CheckEvent.check "efm32gg990", CheckEvent.clean,
         CheckEvent.check "efm32gg995", CheckEvent.clean] := by
  have h := c5_cargo_check_two_features "efm32gg990" "efm32gg995"
    (fun _ => true) (fun _ => true) (by decide) (by decide) (by decide)
  rw [h.1]
  exact h.2.1 rfl rfl rfl rfl

/-- C2 counterexample: with dry-run disabled, three eligible packages and
every external process succeeding, the publish loop sleeps three times, not
two, and the final trace event is a delay that follows the last publish. -/
theorem c2_three_packages_counterexample :
    countSleeps (run_publish ["p1", "p2", "p3"] none false
        (fun _ => PubOutcome.mk true true true)) = 3
    ∧ countSleeps (run_publish ["p1", "p2", "p3"] none false
        (fun _ => PubOutcome.mk true true true)) ≠ 2
    ∧ (run_publish ["p1", "p2", "p3"] none false
        (fun _ => PubOutcome.mk true true true)).getLast?
      = some (PubEvent.sleep 300) := by decide

/-- C2 amended: with dry-run disabled and every publish and post-publish
clean succeeding, the loop delays once after every eligible package, the
last included, so three eligible packages see exactly three delays; with
dry-run enabled no delay occurs regardless of the number of packages or of
the process outcomes. -/
theorem c2_run_publish_delay_count (manifests : List String)
    (exclude : Option (List String)) (o : String → PubOutcome)
    (hok : ∀ p, (o p).publish_ok = true ∧ (o p).post_clean_ok = true) :
    countSleeps (run_publish manifests exclude false o)
      = (manifests.filter (run_publish_eligible exclude)).length
    ∧ ∀ o2 : String → PubOutcome,
        countSleeps (run_publish manifests exclude true o2) = 0 :=
  ⟨run_publish_sleep_per_package manifests exclude o hok,
    fun o2 => run_publish_dry_no_sleep manifests exclude o2⟩

/-- Witness for C2 at three concrete packages with no exclusions. -/
theorem c2_witness :
    countSleeps (run_publish ["a", "b", "c"] none false
        (fun _ => PubOutcome.mk true true true))
      = (["a", "b", "c"].filter (run_publish_eligible none)).length
    ∧ ∀ o2 : String → PubOutcome,
        countSleeps (run_publish ["a", "b", "c"] none true o2) = 0 :=
  c2_run_publish_delay_count ["a", "b", "c"] none
    (fun _ => PubOutcome.mk true true true) (fun _ => ⟨rfl, rfl⟩)

/-- C8 counterexample: a non-zero exit of the clean step run before the
publish is not checked by _publish_crate: under an oracle failing exactly
that clean for the first package, the first package is still published and
the second package is published as well, so the run does not abort. -/
theorem c8_pre_clean_failure_not_fatal :
    (c8_pre_clean_fail_oracle "pac1").pre_clean_ok = false
    ∧ PubEvent.publish "pac1" false
        ∈ run_publish ["pac1", "pac2"] none false c8_pre_clean_fail_oracle
    ∧ PubEvent.publish "pac2" false
        ∈ run_publish ["pac1", "pac2"] none false c8_pre_clean_fail_oracle := by
  decide

/-- C8 amended: in the publish pipeline a non-zero exit of the publish step
or of the clean step run after the publish is fatal and aborts the
remaining queue at once; the exit status of the clean step run before the
publish is never checked, and the trace is independent of it. -/
theorem c8_publish_and_post_clean_fatal (p : String) (rest : List String)
    (exclude : Option (List String)) (d : Bool) (o : String → PubOutcome)
    (helig : run_publish_eligible exclude p = true) :
    ((o p).publish_ok = false →
      run_publish (p :: rest) exclude d o
        = [PubEvent.clean p, PubEvent.publish p d])
    ∧ ((o p).publish_ok = true → (o p).post_clean_ok = false →
      run_publish (p :: rest) exclude d o
        = [PubEvent.clean p, PubEvent.publish p d, PubEvent.clean p])
    ∧ (∀ o2 : String → PubOutcome,
        (∀ q, (o q).publish_ok = (o2 q).publish_ok
          ∧ (o q).post_clean_ok = (o2 q).post_clean_ok) →
        run_publish (p :: rest) exclude d o
          = run_publish (p :: rest) exclude d o2) := by
  refine ⟨?_, ?_, ?_⟩
  · intro h1
    simp [run_publish, helig, _publish_crate, h1]
  · intro h1 h2
    simp [run_publish, helig, _publish_crate, h1, h2]
  · intro o2 h
    exact run_publish_pre_clean_irrelevant (p :: rest) exclude d o o2 h

/-- Witness for C8: a failing publish step for the first of two packages
truncates the trace to the clean and the failed publish of that package. -/
theorem c8_witness :
    run_publish ["x1", "x2"] none false (fun _ => PubOutcome.mk true false true)
      = [PubEvent.clean "x1", PubEvent.publish "x1" false] :=
  (c8_publish_and_post_clean_fatal "x1" ["x2"] none false
    (fun _ => PubOutcome.mk true false true) (by decide)).1 rfl
